import Mathlib

/-!
Verification development for the document structural normalizers of the
streamlit tool collection: the HTML normalizer `clean_html`
(shopify-contentful.py), the DOCX converter `docx_to_html` / `format_paragraph`
(gdoc-shopifyv2.py) and the plain-text converter `plain_text_to_html`
(doc-converter.py).

The Python sources mutate a BeautifulSoup tree parsed by html5lib.  The
shallow embedding works on an explicit rose tree of elements and text nodes
(the parse of the input, which in the source is produced by the external
html5lib parser), and each soup-mutating loop of `clean_html` becomes one
pure tree-to-tree pass, applied in the order of the source.
-/

namespace StreamlitTools

/-- Whitespace characters stripped by Python's `str.strip()` and matched by
`re`'s `\s` on `str` patterns (restricted to the code points that occur in
this development; Python additionally treats some rarer Unicode code points
as whitespace). Includes the non-breaking space U+00A0, which Python's
`str.strip()` does strip. -/
def pyIsSpace (c : Char) : Bool :=
  c = ' ' || c = '\t' || c = '\n' || c = '\r' || c = '\x0b' || c = '\x0c' || c = '\xa0'

/-- `line.lstrip()` on a character list. -/
def lstripL (l : List Char) : List Char := l.dropWhile pyIsSpace

/-- `line.rstrip()` on a character list. -/
def rstripL (l : List Char) : List Char := (l.reverse.dropWhile pyIsSpace).reverse

/-- Python `str.strip()` on a character list. -/
def pyStripL (l : List Char) : List Char := rstripL (lstripL l)

/-- Python `str.strip()`. -/
def pyStrip (s : String) : String := ⟨pyStripL s.data⟩

/-- `re.sub(r"\s+", " ", s)` on a character list: every maximal run of
whitespace becomes a single space. -/
def collapseWsL : Bool → List Char → List Char
  | _, [] => []
  | prevWs, c :: cs =>
    if pyIsSpace c then
      if prevWs then collapseWsL true cs else ' ' :: collapseWsL true cs
    else c :: collapseWsL false cs

/-- `re.sub(r"\s+", " ", s)`. -/
def collapseWs (s : String) : String := ⟨collapseWsL false s.data⟩

/-- `s.replace("\xa0", " ")`. -/
def mapNbsp (s : String) : String := ⟨s.data.map (fun c => if c = '\xa0' then ' ' else c)⟩

/-- `is_empty_or_nbsp` from shopify-contentful.py: text that is `None`,
empty, or only whitespace / non-breaking spaces. -/
def is_empty_or_nbsp (text : String) : Bool :=
  pyStrip (mapNbsp text) = ""

/-- Python `str.split(sep)` for a one-character separator. -/
def splitOnCharL (sep : Char) : List Char → List (List Char)
  | [] => [[]]
  | c :: rest =>
    let r := splitOnCharL sep rest
    if c = sep then [] :: r
    else
      match r with
      | h :: t => (c :: h) :: t
      | [] => [[c]]

/-- The parsed HTML tree: a text node (`NavigableString`) or an element
(`Tag`) with a name, an attribute list and children. -/
inductive Node where
  | text (s : String)
  | elem (tag : String) (attrs : List (String × String)) (children : List Node)
deriving Repr

abbrev Attrs := List (String × String)

mutual

def Node.beq : Node → Node → Bool
  | .text s, .text t => s == t
  | .elem t1 a1 c1, .elem t2 a2 c2 => t1 == t2 && a1 == a2 && Node.beqL c1 c2
  | _, _ => false

def Node.beqL : List Node → List Node → Bool
  | [], [] => true
  | n :: ns, m :: ms => Node.beq n m && Node.beqL ns ms
  | _, _ => false

end

mutual

theorem Node.eq_of_beq : ∀ {a b : Node}, Node.beq a b = true → a = b
  | .text s, .text t, h => by
      simp only [Node.beq, beq_iff_eq] at h; rw [h]
  | .elem t1 a1 c1, .elem t2 a2 c2, h => by
      simp only [Node.beq, Bool.and_eq_true, beq_iff_eq] at h
      rw [h.1.1, h.1.2, Node.eqL_of_beqL h.2]
  | .text _, .elem _ _ _, h => by simp [Node.beq] at h
  | .elem _ _ _, .text _, h => by simp [Node.beq] at h

theorem Node.eqL_of_beqL : ∀ {a b : List Node}, Node.beqL a b = true → a = b
  | [], [], _ => rfl
  | n :: ns, m :: ms, h => by
      simp only [Node.beqL, Bool.and_eq_true] at h
      rw [Node.eq_of_beq h.1, Node.eqL_of_beqL h.2]
  | [], _ :: _, h => by simp [Node.beqL] at h
  | _ :: _, [], h => by simp [Node.beqL] at h

end

mutual

theorem Node.beq_refl : ∀ (a : Node), Node.beq a a = true
  | .text s => by simp [Node.beq]
  | .elem t a cs => by simp [Node.beq, Node.beqL_refl cs]

theorem Node.beqL_refl : ∀ (a : List Node), Node.beqL a a = true
  | [] => rfl
  | n :: ns => by simp [Node.beqL, Node.beq_refl n, Node.beqL_refl ns]

end

instance : DecidableEq Node := fun a b =>
  match h : Node.beq a b with
  | true => isTrue (Node.eq_of_beq h)
  | false => isFalse (fun he => by
      rw [he, Node.beq_refl] at h; cases h)

/-- `tag.get(name) or ""`: attribute lookup defaulting to the empty string. -/
def attrGet (attrs : Attrs) (name : String) : String :=
  match attrs.find? (fun kv => kv.1 = name) with
  | some kv => kv.2
  | none => ""

mutual

/-- The visible-text tokens of `get_text(" ", strip=True)`: every descendant
string, stripped, with empty results dropped. -/
def textTokens : Node → List String
  | .text s => let t := pyStrip s; if t = "" then [] else [t]
  | .elem _ _ cs => textTokensL cs

def textTokensL : List Node → List String
  | [] => []
  | n :: ns => textTokens n ++ textTokensL ns

end

/-- `get_text(" ", strip=True)` over a child list. -/
def getTextStripL (cs : List Node) : String :=
  String.intercalate " " (textTokensL cs)

/-- `get_text(" ", strip=True)` of one node. -/
def getTextStrip (n : Node) : String :=
  String.intercalate " " (textTokens n)

mutual

/-- `get_text()` with no separator and no stripping (used by the
whole-paragraph-bold fix). -/
def getTextRaw : Node → String
  | .text s => s
  | .elem _ _ cs => getTextRawL cs

def getTextRawL : List Node → String
  | [] => ""
  | n :: ns => getTextRaw n ++ getTextRawL ns

end

/-! ### clean_html (shopify-contentful.py): pass 1, images -> placeholders -/

/-- `src.split("/")[-1].split("?")[0] if src else ""` (lines 38). -/
def imgFilename (src : String) : String :=
  if src = "" then ""
  else ⟨((splitOnCharL '/' src.data).reverse.headD []).takeWhile (fun c => c ≠ '?')⟩

/-- The label of the `[IMAGE: ...]` placeholder (lines 40-41): the non-empty
members of `[alt.strip(), filename.strip()]` joined by " / ", or "IMAGE". -/
def imgLabel (alt src : String) : String :=
  let parts := [pyStrip alt, pyStrip (imgFilename src)].filter (fun p => p ≠ "")
  if parts.isEmpty then "IMAGE" else String.intercalate " / " parts

/-- `f"[IMAGE: {label}]"` computed from an `<img>`'s attribute list. -/
def imgPlaceholder (attrs : Attrs) : String :=
  "[IMAGE: " ++ imgLabel (attrGet attrs "alt") (attrGet attrs "src") ++ "]"

mutual

/-- Lines 35-44: every `<img>` is replaced, in place, by the placeholder
text node. -/
def imagesPass : Node → Node
  | .text s => .text s
  | .elem tag attrs cs =>
    if tag = "img" then .text (imgPlaceholder attrs)
    else .elem tag attrs (imagesPassL cs)

def imagesPassL : List Node → List Node
  | [] => []
  | n :: ns => imagesPass n :: imagesPassL ns

end

/-! ### clean_html pass 2, styled spans -> strong/em/u or unwrap -/

/-- Python `needle in haystack` on character lists. -/
def infixOfL (needle : List Char) : List Char → Bool
  | [] => needle.isEmpty
  | c :: rest => needle.isPrefixOf (c :: rest) || infixOfL needle rest

/-- Python `needle in haystack` on strings. -/
def containsStr (haystack needle : String) : Bool :=
  infixOfL needle.data haystack.data

/-- The retag decision of lines 50-58, applied to `span.get("style","").lower()`:
`font-weight` plus `700`/`bold` gives `strong`; else `font-style` plus
`italic` gives `em`; else `text-decoration` plus `underline` gives `u`;
else the span is unwrapped (`none`). -/
def spanRetag (style : String) : Option String :=
  let st := style.toLower
  if containsStr st "font-weight" && (containsStr st "700" || containsStr st "bold") then
    some "strong"
  else if containsStr st "font-style" && containsStr st "italic" then some "em"
  else if containsStr st "text-decoration" && containsStr st "underline" then some "u"
  else none

mutual

/-- Lines 47-60: retag a styled `<span>` (dropping its `style` attribute) or
unwrap it, promoting its children. -/
def spansPass : Node → List Node
  | .text s => [.text s]
  | .elem tag attrs cs =>
    let cs2 := spansPassL cs
    if tag = "span" then
      match spanRetag (attrGet attrs "style") with
      | some newTag => [.elem newTag (attrs.filter (fun kv => kv.1 ≠ "style")) cs2]
      | none => cs2
    else [.elem tag attrs cs2]

def spansPassL : List Node → List Node
  | [] => []
  | n :: ns => spansPass n ++ spansPassL ns

end

/-! ### clean_html pass 3, `<br>` -> a single space -/

mutual

/-- Lines 63-64: every `<br>` is replaced by the text " ". -/
def brPass : Node → Node
  | .text s => .text s
  | .elem tag attrs cs =>
    if tag = "br" then .text " " else .elem tag attrs (brPassL cs)

def brPassL : List Node → List Node
  | [] => []
  | n :: ns => brPass n :: brPassL ns

end

/-! ### Whitespace normalisation of inner markup

`inner_html = el.decode_contents(); re.sub(r"\s+", " ", inner_html).strip()`
followed by re-parsing (lines 80-90, 104-114, 124-134).  On the tree this
amounts to: merge adjacent text nodes (serialisation concatenates them and
the re-parse yields a single string node), collapse every whitespace run in
text nodes and attribute values, and strip leading/trailing whitespace of
the serialised content (which can only affect the first/last node when it
is text, `<` and `>` not being whitespace).  Re-parsing inline content with
html5lib is otherwise structure-preserving. -/

/-- Merge runs of adjacent text nodes into one text node, as serialising and
re-parsing does. -/
def mergeTexts : List Node → List Node
  | [] => []
  | .text s :: rest =>
    match mergeTexts rest with
    | .text t :: rest2 => .text (s ++ t) :: rest2
    | rest2 => .text s :: rest2
  | n :: rest => n :: mergeTexts rest

mutual

/-- Collapse whitespace runs in every descendant text node and attribute
value, merging adjacent text nodes. -/
def deepCollapse : Node → Node
  | .text s => .text (collapseWs s)
  | .elem tag attrs cs =>
    .elem tag (attrs.map (fun kv => (kv.1, collapseWs kv.2))) (deepCollapseL cs)

def deepCollapseL : List Node → List Node
  | [] => []
  | n :: ns => deepCollapse n :: deepCollapseL ns

end

mutual

/-- Merge adjacent text nodes everywhere in the tree. -/
def deepMerge : Node → Node
  | .text s => .text s
  | .elem tag attrs cs => .elem tag attrs (mergeTexts (deepMergeL cs))

def deepMergeL : List Node → List Node
  | [] => []
  | n :: ns => deepMerge n :: deepMergeL ns

end

/-- Strip leading whitespace of the serialised content: left-strip the
leading text nodes, dropping any that become empty. -/
def trimStart : List Node → List Node
  | .text s :: rest =>
    let s2 : String := ⟨lstripL s.data⟩
    if s2 = "" then trimStart rest else .text s2 :: rest
  | ns => ns

/-- Strip trailing whitespace of the serialised content. -/
def trimEndAux : List Node → List Node
  | .text s :: rest =>
    let s2 : String := ⟨(rstripL s.data)⟩
    if s2 = "" then trimEndAux rest else .text s2 :: rest
  | ns => ns

def trimEnd (ns : List Node) : List Node :=
  (trimEndAux ns.reverse).reverse

/-- The decode / `re.sub(r"\s+", " ")` / `.strip()` / re-parse normalisation
of inner markup. -/
def normalizeInner (cs : List Node) : List Node :=
  trimEnd (trimStart (deepCollapseL (mergeTexts (deepMergeL cs))))

/-! ### clean_html pass 4, paragraphs (lines 67-90) -/

/-- `SHORTCODE_PATTERNS = ("[table=", "[highlight-block=", "[cta=")` and the
`any(pattern in text ...)` test of line 75. -/
def hasShortcode (text : String) : Bool :=
  containsStr text "[table=" || containsStr text "[highlight-block=" ||
    containsStr text "[cta="

mutual

/-- Lines 67-90: a `<p>` whose visible text is empty/nbsp-only is removed;
a `<p>` whose text contains a shortcode marker is replaced by its flattened,
whitespace-collapsed plain text; any other `<p>` keeps its inner markup with
whitespace normalised.  (As in the source, the text is inspected before the
children are rewritten; html5lib never nests `<p>` inside `<p>`.) -/
def paragraphsPass : Node → List Node
  | .text s => [.text s]
  | .elem tag attrs cs =>
    if tag = "p" then
      let t := getTextStripL cs
      if is_empty_or_nbsp t then []
      else if hasShortcode t then [.elem "p" attrs [.text (collapseWs t)]]
      else [.elem "p" attrs (normalizeInner (paragraphsPassL cs))]
    else [.elem tag attrs (paragraphsPassL cs)]

def paragraphsPassL : List Node → List Node
  | [] => []
  | n :: ns => paragraphsPass n ++ paragraphsPassL ns

end

/-! ### clean_html pass 5, list items (lines 93-114) -/

def nodeIsElem : Node → Bool
  | .text _ => false
  | .elem _ _ _ => true

/-- Lines 99-102: if the only element child of the `<li>` is one `<p>`, that
paragraph is unwrapped in place (its children spliced where it stood). -/
def unwrapSingleP (cs : List Node) : List Node :=
  match cs.filter nodeIsElem with
  | [Node.elem "p" _ _] =>
    cs.flatMap (fun n =>
      match n with
      | .elem "p" _ pcs => pcs
      | other => [other])
  | _ => cs

mutual

/-- Lines 93-114: a blank `<li>` is removed; otherwise a single `<p>` child
is unwrapped and the inner markup whitespace-normalised.  The source's
`decode_contents` / re-parse rebuilds the whole subtree of each outermost
`<li>`, so descendant `<li>`s are only touched by that normalisation (their
own snapshot entries are detached copies); the recursion therefore stops at
the first `<li>` on each path. -/
def liPass : Node → List Node
  | .text s => [.text s]
  | .elem tag attrs cs =>
    if tag = "li" then
      let t := getTextStripL cs
      if is_empty_or_nbsp t then []
      else [.elem "li" attrs (normalizeInner (unwrapSingleP cs))]
    else [.elem tag attrs (liPassL cs)]

def liPassL : List Node → List Node
  | [] => []
  | n :: ns => liPass n ++ liPassL ns

end

/-! ### clean_html pass 6, headings (lines 117-134) -/

def headingTags : List String := ["h1", "h2", "h3", "h4", "h5", "h6"]

mutual

/-- Lines 117-134: a blank heading is removed, any other heading keeps its
inner markup (bold included) with whitespace normalised. -/
def headingsPass : Node → List Node
  | .text s => [.text s]
  | .elem tag attrs cs =>
    if headingTags.contains tag then
      let t := getTextStripL cs
      if is_empty_or_nbsp t then []
      else [.elem tag attrs (normalizeInner (headingsPassL cs))]
    else [.elem tag attrs (headingsPassL cs)]

def headingsPassL : List Node → List Node
  | [] => []
  | n :: ns => headingsPass n ++ headingsPassL ns

end

/-! ### clean_html pass 7, whole-paragraph-bold split (lines 136-150) -/

/-- `re.search(r'([.!?]["\']?\s+)', full_text)`: the end index of the first
match of sentence punctuation, an optional quote, then a whitespace run. -/
def sentSplitAux : List Char → Nat → Option Nat
  | [], _ => none
  | c :: rest, i =>
    if c = '.' || c = '!' || c = '?' then
      match rest with
      | [] => none
      | q :: rest2 =>
        if (q = '"' || q = '\'') && (rest2.takeWhile pyIsSpace).length > 0 then
          some (i + 2 + (rest2.takeWhile pyIsSpace).length)
        else if pyIsSpace q then
          some (i + 1 + (rest.takeWhile pyIsSpace).length)
        else sentSplitAux rest (i + 1)
    else sentSplitAux rest (i + 1)

/-- Lines 138-150 applied to the children of one `<p>`: when the only
element child is a `<strong>`/`<b>` and its flattened text contains a
sentence break, the tag is rebuilt with only the first sentence (nested
markup is flattened, as `strong.clear()` does) and the remainder is
re-inserted after it as plain text (only when non-blank). -/
def splitBoldChildren (cs : List Node) : List Node :=
  match cs.filter nodeIsElem with
  | [Node.elem st _ scs] =>
    if st = "strong" || st = "b" then
      let full := getTextRawL scs
      match sentSplitAux full.data 0 with
      | some idx =>
        let first : String := ⟨full.data.take idx⟩
        let rest : String := ⟨full.data.drop idx⟩
        cs.flatMap (fun n =>
          match n with
          | .elem t2 a2 _ =>
            [Node.elem t2 a2 [.text first]] ++
              (if pyStrip rest ≠ "" then [.text rest] else [])
          | other => [other])
      | none => cs
    else cs
  | _ => cs

mutual

def pBoldSplitPass : Node → Node
  | .text s => .text s
  | .elem tag attrs cs =>
    let cs2 := pBoldSplitL cs
    if tag = "p" then .elem tag attrs (splitBoldChildren cs2)
    else .elem tag attrs cs2

def pBoldSplitL : List Node → List Node
  | [] => []
  | n :: ns => pBoldSplitPass n :: pBoldSplitL ns

end

/-! ### clean_html pass 8, unwrap nested `<p>` inside `<li>` (lines 152-155) -/

mutual

/-- Unwrap every descendant `<p>` of one node. -/
def unwrapPNode : Node → List Node
  | .text s => [.text s]
  | .elem t a cs =>
    if t = "p" then unwrapAllP cs else [.elem t a (unwrapAllP cs)]

/-- Unwrap every descendant `<p>` in a child list. -/
def unwrapAllP : List Node → List Node
  | [] => []
  | n :: ns => unwrapPNode n ++ unwrapAllP ns

end

mutual

def liUnwrapPPass : Node → Node
  | .text s => .text s
  | .elem t a cs =>
    let cs2 := liUnwrapPL cs
    if t = "li" then .elem t a (unwrapAllP cs2) else .elem t a cs2

def liUnwrapPL : List Node → List Node
  | [] => []
  | n :: ns => liUnwrapPPass n :: liUnwrapPL ns

end

/-! ### clean_html pass 9, NBSP glue after bold in `<li>` (lines 157-167) -/

def isAsciiAlpha (c : Char) : Bool :=
  ('A' ≤ c && c ≤ 'Z') || ('a' ≤ c && c ≤ 'z')

/-- `re.match(r"^[A-Za-z]", nxt.strip())`. -/
def alphaAfterStrip (s : String) : Bool :=
  match pyStripL s.data with
  | c :: _ => isAsciiAlpha c
  | [] => false

/-- Lines 161-167 on the direct children of one `<li>`: a text sibling
immediately after a `<b>`/`<strong>` that starts (after stripping) with a
letter gets a non-breaking space prefixed.  (A text node is never itself a
trigger, so after a handled pair the scan can resume behind the text.) -/
def glueAux : List Node → List Node
  | .elem t a cs :: .text s :: rest =>
    let s2 := if (t = "b" || t = "strong") && alphaAfterStrip s then "\xa0" ++ s else s
    .elem t a cs :: .text s2 :: glueAux rest
  | n :: rest => n :: glueAux rest
  | [] => []

mutual

def gluePass : Node → Node
  | .text s => .text s
  | .elem t a cs =>
    let cs2 := gluePassL cs
    if t = "li" then .elem t a (glueAux cs2) else .elem t a cs2

def gluePassL : List Node → List Node
  | [] => []
  | n :: ns => gluePass n :: gluePassL ns

end

/-! ### clean_html pass 10, move punctuation after bold inside the tag
(lines 169-191) -/

def punctSet (c : Char) : Bool :=
  c = ',' || c = ';' || c = ':' || c = '.'

/-- `re.match(r"\s*([,;:.])(\s*)(.*)", txt_norm)`: the punctuation char, the
following whitespace and the rest of the (newline-free) text. -/
def punctParse (l : List Char) : Option (Char × List Char × List Char) :=
  match l.dropWhile pyIsSpace with
  | p :: rest2 =>
    if punctSet p then
      some (p, rest2.takeWhile pyIsSpace,
        (rest2.dropWhile pyIsSpace).takeWhile (fun c => c ≠ '\n'))
    else none
  | [] => none

/-- `child.string`-style deep append: follow the single-child chain and
append to the final string, if there is one. -/
def deepAppendString : Node → String → Option Node
  | .elem t a [c], p =>
    match c with
    | .text s => some (.elem t a [.text (s ++ p)])
    | .elem t2 a2 cs2 =>
      (deepAppendString (.elem t2 a2 cs2) p).map (fun c2 => .elem t a [c2])
  | _, _ => none

/-- `child.string.replace_with(... + punct)` when `.string` exists, else
`child.append(punct)` (lines 182-185). -/
def addPunct (n : Node) (p : String) : Node :=
  match deepAppendString n p with
  | some n2 => n2
  | none =>
    match n with
    | .elem t a cs => .elem t a (cs ++ [.text p])
    | .text s => .text s

/-- Lines 172-191 on the direct children of one `<li>`: punctuation at the
start of a text sibling that follows a `<b>`/`<strong>` is moved inside the
tag; the text keeps the whitespace and the remainder (and is removed when
nothing is left).  (A text node is never itself a trigger, so after a
handled pair the scan can resume behind the text.) -/
def pmAux : List Node → List Node
  | .elem t a cs :: .text s :: rest =>
    if t = "b" || t = "strong" then
      match punctParse (mapNbsp s).data with
      | some (p, spaces, after) =>
        let n2 := addPunct (.elem t a cs) (String.singleton p)
        let newTxt : String := ⟨spaces ++ after⟩
        if newTxt ≠ "" then n2 :: .text newTxt :: pmAux rest
        else n2 :: pmAux rest
      | none => .elem t a cs :: .text s :: pmAux rest
    else .elem t a cs :: .text s :: pmAux rest
  | n :: rest => n :: pmAux rest
  | [] => []

mutual

def punctMovePass : Node → Node
  | .text s => .text s
  | .elem t a cs =>
    let cs2 := punctMoveL cs
    if t = "li" then .elem t a (pmAux cs2) else .elem t a cs2

def punctMoveL : List Node → List Node
  | [] => []
  | n :: ns => punctMovePass n :: punctMoveL ns

end

/-! ### clean_html pass 11, wrap each `<li>`'s contents in one `<p>`
(lines 196-210) -/

/-- `isinstance(c, Tag) and c.name == "p"`. -/
def isPElem : Node → Bool
  | .elem t _ _ => t = "p"
  | .text _ => false

/-- `len(contents) == 1 and isinstance(contents[0], Tag) and
contents[0].name == "p"` (line 202). -/
def isSinglePChild (cs : List Node) : Bool :=
  cs.length = 1 && cs.all isPElem

/-- Lines 197-210 for one `<li>`'s contents: leave an empty item or an
exactly-one-`<p>` item alone, otherwise move everything into a fresh
attribute-free `<p>`. -/
def wrapLiChildren (a : Attrs) (cs2 : List Node) : Node :=
  if cs2.isEmpty then .elem "li" a cs2
  else if isSinglePChild cs2 then .elem "li" a cs2
  else .elem "li" a [.elem "p" [] cs2]

mutual

def liWrapPass : Node → Node
  | .text s => .text s
  | .elem t a cs =>
    let cs2 := liWrapL cs
    if t = "li" then wrapLiChildren a cs2
    else .elem t a cs2

def liWrapL : List Node → List Node
  | [] => []
  | n :: ns => liWrapPass n :: liWrapL ns

end

/-! ### clean_html pass 12, attribute stripping (lines 213-234) -/

def iframeSafeAttrs : List String :=
  ["src", "width", "height", "allow", "allowfullscreen", "frameborder",
   "title", "loading", "referrerpolicy"]

mutual

def attrsPass : Node → Node
  | .text s => .text s
  | .elem t a cs =>
    let a2 :=
      if t = "iframe" then a.filter (fun kv => iframeSafeAttrs.contains kv.1)
      else a.filter (fun kv => kv.1 = "href" || kv.1 = "src")
    .elem t a2 (attrsPassL cs)

def attrsPassL : List Node → List Node
  | [] => []
  | n :: ns => attrsPass n :: attrsPassL ns

end

/-! ### clean_html pipeline -/

/-- All twelve tree-rewriting passes of `clean_html`, in source order,
applied to the parsed `<body>` children. -/
def cleanTreeL (ns : List Node) : List Node :=
  attrsPassL (liWrapL (punctMoveL (gluePassL (liUnwrapPL (pBoldSplitL
    (headingsPassL (liPassL (paragraphsPassL (brPassL (spansPassL
      (imagesPassL ns)))))))))))

/-- bs4 "minimal" formatter escaping for text nodes. -/
def escText (s : String) : String :=
  ⟨s.data.flatMap (fun c =>
    if c = '&' then "&amp;".data
    else if c = '<' then "&lt;".data
    else if c = '>' then "&gt;".data
    else [c])⟩

def escAttrVal (s : String) : String :=
  ⟨s.data.flatMap (fun c =>
    if c = '&' then "&amp;".data
    else if c = '"' then "&quot;".data
    else [c])⟩

def voidTags : List String :=
  ["area", "base", "br", "col", "embed", "hr", "img", "input", "link",
   "meta", "param", "source", "track", "wbr"]

mutual

/-- `soup.body.decode_contents()`-style serialisation of the tree. -/
def render : Node → String
  | .text s => escText s
  | .elem t a cs =>
    let attrsStr :=
      String.join (a.map (fun kv => " " ++ kv.1 ++ "=\"" ++ escAttrVal kv.2 ++ "\""))
    if voidTags.contains t then "<" ++ t ++ attrsStr ++ "/>"
    else "<" ++ t ++ attrsStr ++ ">" ++ renderL cs ++ "</" ++ t ++ ">"

def renderL : List Node → String
  | [] => ""
  | n :: ns => render n ++ renderL ns

end

/-- `clean_html` from shopify-contentful.py.  Parsing (`BeautifulSoup(raw,
"html5lib")`) is the external collaborator, supplied as the `parse`
argument yielding the `<body>` children of the parsed document; the
`isinstance(raw_html, str)` half of the guard is vacuous for a `String`
input. -/
def clean_html (parse : String → List Node) (raw : String) : String :=
  if pyStrip raw = "" then ""
  else renderL (cleanTreeL (parse raw))

/-! ## gdoc-shopifyv2.py: DOCX to HTML/Markdown -/

/-- A python-docx run: its text and the truthiness of its
bold/italic/underline flags (`None` and `False` are both falsy), plus
whether its XML contains a `<w:br>` manual line break. -/
structure Run where
  text : String
  bold : Bool
  italic : Bool
  underline : Bool
  hasBr : Bool
deriving DecidableEq, Repr

/-- The inline-markup decision of format_paragraph lines 33-46 for one run:
effective bold is suppressed in heading context (`strip_bold`), then
bold+italic nests strong/em, bold alone gives strong, italic alone em,
underline alone u, otherwise plain text. -/
def formatRun (stripBold : Bool) (r : Run) : String :=
  let bold := if stripBold && r.bold then false else r.bold
  if bold && r.italic then "<strong><em>" ++ r.text ++ "</em></strong>"
  else if bold then "<strong>" ++ r.text ++ "</strong>"
  else if r.italic then "<em>" ++ r.text ++ "</em>"
  else if r.underline then "<u>" ++ r.text ++ "</u>"
  else r.text

/-- `format_paragraph` from gdoc-shopifyv2.py: accumulate formatted run
fragments, skipping runs with no text and no line break, and close a chunk
(joined and stripped) at every `<w:br>`. -/
def format_paragraph (stripBold : Bool) (runs : List Run) : List String :=
  let step := fun (acc : List String × List String) (r : Run) =>
    if r.text = "" && !r.hasBr then acc
    else
      let current := acc.2 ++ [formatRun stripBold r]
      if r.hasBr then (acc.1 ++ [pyStrip (String.join current)], [])
      else (acc.1, current)
  let acc := runs.foldl step ([], [])
  if acc.2.isEmpty then acc.1 else acc.1 ++ [pyStrip (String.join acc.2)]

/-- A paragraph of the python-docx object model, as `docx_to_html` consumes
it: its runs, its style name, and whether its XML has a `<w:numPr>`
numbering property. -/
structure GPara where
  runs : List Run
  style : String
  hasNumPr : Bool
deriving DecidableEq, Repr

/-- `para.text`: the concatenated run text. -/
def paraText (p : GPara) : String :=
  String.join (p.runs.map Run.text)

/-- `HEADING_STYLES` from gdoc-shopifyv2.py. -/
def HEADING_STYLES : List (String × String) :=
  [("Title", "h1"), ("Heading 1", "h1"), ("Heading 2", "h2"),
   ("Heading 3", "h3"), ("Heading 4", "h4"), ("Heading 5", "h5"),
   ("Heading 6", "h6")]

def headingTagOf (style : String) : Option String :=
  (HEADING_STYLES.find? (fun kv => kv.1 = style)).map (fun kv => kv.2)

/-- `'#' * int(tag[1])` followed by the chunk: the markdown heading line. -/
def mdHeading (tag : String) (chunk : String) : String :=
  let n := ((tag.data.drop 1).headD '0').toNat - '0'.toNat
  ⟨List.replicate n '#'⟩ ++ " " ++ chunk

/-- The mutable state of the docx_to_html loop. -/
structure DState where
  html : List String
  md : List String
  inList : Bool
  listType : Option String
  listBuffer : List String
  mdListBuffer : List String
deriving DecidableEq, Repr

def initDState : DState := ⟨[], [], false, none, [], []⟩

/-- The lines emitted for one accumulated list:
`<ul>`/`<ol>`, one indented `<li>` per item, and the closing tag with a
trailing newline.  The tag is `ul` exactly when `list_type == "ul"`. -/
def listBlockLines (listType : Option String) (buf : List String) : List String :=
  let tag := if listType = some "ul" then "ul" else "ol"
  ["<" ++ tag ++ ">"] ++ buf.map (fun item => "  <li>" ++ item ++ "</li>") ++
    ["</" ++ tag ++ ">\n"]

/-- `flush_list` from gdoc-shopifyv2.py (lines 67-79): emit the buffered
list (if any) to the html lines and the buffered markdown items, then clear
the buffers and leave list mode.  `list_type` is not reset. -/
def flush_list (s : DState) : DState :=
  let s1 :=
    if s.listBuffer.isEmpty then s
    else { s with html := s.html ++ listBlockLines s.listType s.listBuffer }
  let s2 :=
    if s1.mdListBuffer.isEmpty then s1
    else { s1 with md := s1.md ++ s1.mdListBuffer }
  { s2 with inList := false, listBuffer := [], mdListBuffer := [] }

/-- `"Numbered" in style`. -/
def styleIsNumbered (style : String) : Bool :=
  infixOfL "Numbered".data style.data

/-- The list kind `docx_to_html` line 100 assigns for a numbered-property
paragraph. -/
def paraListKind (p : GPara) : String :=
  if styleIsNumbered p.style then "ol" else "ul"

/-- One iteration of the `for para in doc.paragraphs` loop of
`docx_to_html` (lines 81-109). -/
def docxStep (s : DState) (p : GPara) : DState :=
  if pyStrip (paraText p) = "" then flush_list s
  else
    match headingTagOf p.style with
    | some tag =>
      let chunks := format_paragraph true p.runs
      let s2 := flush_list s
      { s2 with
        html := s2.html ++ chunks.map (fun c => "<" ++ tag ++ ">" ++ c ++ "</" ++ tag ++ ">\n"),
        md := s2.md ++ chunks.map (mdHeading tag) }
    | none =>
      let chunks := format_paragraph false p.runs
      if p.hasNumPr then
        let lt := paraListKind p
        { s with
          inList := true, listType := some lt,
          listBuffer := s.listBuffer ++ chunks,
          mdListBuffer := s.mdListBuffer ++
            chunks.map (fun c => (if lt = "ol" then "1." else "-") ++ " " ++ c) }
      else
        let s2 := flush_list s
        { s2 with
          html := s2.html ++ chunks.map (fun c => "<p>" ++ c ++ "</p>\n"),
          md := s2.md ++ chunks }

/-- The final state of `docx_to_html`: the loop over all paragraphs
followed by the closing `flush_list()`. -/
def docxFinal (paras : List GPara) : DState :=
  flush_list (paras.foldl docxStep initDState)

/-- `docx_to_html` from gdoc-shopifyv2.py: the html and markdown outputs,
each `'\n'.join`-ed. -/
def docx_to_html (paras : List GPara) : String × String :=
  let s := docxFinal paras
  (String.intercalate "\n" s.html, String.intercalate "\n" s.md)

/-! ## doc-converter.py: plain_text_to_html -/

/-- `line.lower()` (ASCII; the matched literals are ASCII). -/
def lowerL (l : List Char) : List Char := l.map Char.toLower

def titlePat : List Char := ['t', 'i', 't', 'l', 'e', ':']
def metaTitlePat : List Char :=
  ['m', 'e', 't', 'a', ' ', 't', 'i', 't', 'l', 'e', ':']
def metaDescPat : List Char :=
  ['m', 'e', 't', 'a', ' ', 'd', 'e', 's', 'c', 'r', 'i', 'p', 't', 'i', 'o', 'n', ':']
def statusPat : List Char := ['s', 't', 'a', 't', 'u', 's', ':']
def ctaPat : List Char :=
  ['[', 'F', 'I', 'N', 'D', ' ', 'O', 'U', 'T', ' ', 'M', 'O', 'R', 'E', ']']
def relatedShortPat : List Char :=
  ['[', 'R', 'e', 'l', 'a', 't', 'e', 'd', ' ', 'a', 'r', 't', 'i', 'c', 'l', 'e', ':']
def relatedFullPat : List Char := relatedShortPat ++ [' ']
def carouselShortPat : List Char :=
  ['[', 'p', 'r', 'o', 'd', 'u', 'c', 't', '-', 'c', 'a', 'r', 'o', 'u', 's', 'e', 'l']
def carouselFullPat : List Char := carouselShortPat ++ [' ']

/-- `line.lower().startswith("title:")`. -/
def isTitleLine (l : List Char) : Bool := titlePat.isPrefixOf (lowerL l)

/-- The `meta title:` / `meta description:` / `status:` prefix test. -/
def isMetaLine (l : List Char) : Bool :=
  metaTitlePat.isPrefixOf (lowerL l) || metaDescPat.isPrefixOf (lowerL l) ||
    statusPat.isPrefixOf (lowerL l)

def headingPrefixPat : List Char := ['h', 'e', 'a', 'd', 'i', 'n', 'g', ' ']

/-- `re.match(r"^heading \d:", line.lower())`. -/
def isHeadingLine (l : List Char) : Bool :=
  headingPrefixPat.isPrefixOf (lowerL l) &&
    (match (lowerL l).drop 8 with
     | d :: c :: _ => d.isDigit && c = ':'
     | _ => false)

def isCtaLine (l : List Char) : Bool := l = ctaPat

def isRelatedLine (l : List Char) : Bool := infixOfL relatedShortPat l

def isCarouselLine (l : List Char) : Bool := infixOfL carouselShortPat l

/-- `re.match(r"^[-*•]\s+", line)`. -/
def isBulletLine (l : List Char) : Bool :=
  match l with
  | m :: c :: _ => (m = '-' || m = '*' || m = '•') && pyIsSpace c
  | _ => false

/-- `re.sub(r"^[-*•]\s+", "", line)` under a successful bullet match. -/
def bulletItem (l : List Char) : List Char := (l.drop 1).dropWhile pyIsSpace

/-- `re.match(r"^\d+\.\s+", line)`. -/
def isOrderedLine (l : List Char) : Bool :=
  let ds := l.takeWhile Char.isDigit
  !ds.isEmpty &&
    (match l.drop ds.length with
     | '.' :: c :: _ => pyIsSpace c
     | _ => false)

/-- `re.sub(r"^\d+\.\s+", "", line)` under a successful ordered match. -/
def orderedItem (l : List Char) : List Char :=
  ((l.drop (l.takeWhile Char.isDigit).length).drop 1).dropWhile pyIsSpace

/-- The remainder of `l` after the first occurrence of `pat`, if any. -/
def afterSub (pat : List Char) : List Char → Option (List Char)
  | [] => if pat.isEmpty then some [] else none
  | c :: rest =>
    if pat.isPrefixOf (c :: rest) then some ((c :: rest).drop pat.length)
    else afterSub pat rest

/-- `re.findall(r"\[<marker> (.*?)\]", line)[0]`: the text between the full
marker (with its trailing space) and the next `]`, when present.  Lines
contain no newline, so the regex `.` restriction is vacuous. -/
def extractBetween (pat : List Char) (l : List Char) : Option (List Char) :=
  match afterSub pat l with
  | some rest => if rest.contains ']' then some (rest.takeWhile (fun c => c ≠ ']')) else none
  | none => none

/-- `line.split(":", 1)[1]`. -/
def afterFirstColon (l : List Char) : List Char :=
  (l.dropWhile (fun c => c ≠ ':')).drop 1

/-- The mutable state of the plain_text_to_html loop. -/
structure PState where
  output : List String
  inList : Bool
  listType : Option String
  listItems : List String
deriving DecidableEq, Repr

def initPState : PState := ⟨[], false, none, []⟩

/-- `flush_list` from doc-converter.py (lines 14-24): when items are
buffered, emit `<ul>`/`<ol>`, the `<li>` lines and the closing tag, and
reset the whole list state (here `list_type` is reset too). -/
def flushP (s : PState) : PState :=
  if s.listItems.isEmpty then s
  else
    let tag := if s.listType = some "ul" then "ul" else "ol"
    { output := s.output ++ (["<" ++ tag ++ ">"] ++
        s.listItems.map (fun item => "<li>" ++ item ++ "</li>") ++
        ["</" ++ tag ++ ">"]),
      inList := false, listType := none, listItems := [] }

/-- One iteration of the `for line in lines` loop of `plain_text_to_html`
(lines 26-85), on the stripped line. -/
def pstep (s : PState) (rawLine : String) : PState :=
  let l := pyStripL rawLine.data
  if l.isEmpty then flushP s
  else if isTitleLine l then
    let s2 := flushP s
    { s2 with output := s2.output ++
        ["<h1>" ++ (⟨pyStripL (afterFirstColon l)⟩ : String) ++ "</h1>"] }
  else if isMetaLine l then
    let s2 := flushP s
    { s2 with output := s2.output ++ ["<!-- " ++ (⟨l⟩ : String) ++ " -->"] }
  else if isHeadingLine l then
    let s2 := flushP s
    match l.drop 10 with
    | [] => s2
    | rest =>
      let lvl : String := ⟨[(l.drop 8).headD '0']⟩
      { s2 with output := s2.output ++
          ["<h" ++ lvl ++ ">" ++ (⟨pyStripL rest⟩ : String) ++ "</h" ++ lvl ++ ">"] }
  else if isCtaLine l then
    let s2 := flushP s
    { s2 with output := s2.output ++
        ["<p><a href=\"#\" class=\"cta\">FIND OUT MORE</a></p>"] }
  else if isRelatedLine l then
    let s2 := flushP s
    match extractBetween relatedFullPat l with
    | some cap =>
      { s2 with output := s2.output ++
          ["<p><em>Related article: " ++ (⟨cap⟩ : String) ++ "</em></p>"] }
    | none => s2
  else if isCarouselLine l then
    let s2 := flushP s
    match extractBetween carouselFullPat l with
    | some prod =>
      { s2 with output := s2.output ++
          ["<div class=\"product-carousel\" data-id=\"" ++ (⟨prod⟩ : String) ++ "\"></div>"] }
    | none => s2
  else if isBulletLine l then
    let s2 := if s.inList then s else flushP s
    { s2 with
      inList := true,
      listType := (if s.inList then s2.listType else some "ul"),
      listItems := s2.listItems ++ [(⟨bulletItem l⟩ : String)] }
  else if isOrderedLine l then
    let s2 := if s.inList then s else flushP s
    { s2 with
      inList := true,
      listType := (if s.inList then s2.listType else some "ol"),
      listItems := s2.listItems ++ [(⟨orderedItem l⟩ : String)] }
  else
    let s2 := flushP s
    { s2 with output := s2.output ++ ["<p>" ++ (⟨l⟩ : String) ++ "</p>"] }

/-- `plain_text_to_html` from doc-converter.py, on the line list produced
by the library call `raw_text.splitlines()`. -/
def plain_text_to_html (lines : List String) : String :=
  String.intercalate "\n" (flushP (lines.foldl pstep initPState)).output

/-! ## Predicates used by the statements -/

/-- The image-label rule in the words of the specification: join the
non-empty alt text and the final path segment of the src (query part
removed) with " / ", use just the one present when the other is empty, and
the literal "IMAGE" when both are empty. -/
def specImgLabel (alt src : String) : String :=
  let a := pyStrip alt
  let f := pyStrip (imgFilename src)
  if a ≠ "" && f ≠ "" then a ++ " / " ++ f
  else if a ≠ "" then a
  else if f ≠ "" then f
  else "IMAGE"

mutual

/-- Does the tree contain an element with the given tag name? -/
def containsTag (t : String) : Node → Bool
  | .text _ => false
  | .elem t2 _ cs => t2 = t || containsTagL t cs

def containsTagL (t : String) : List Node → Bool
  | [] => false
  | n :: ns => containsTag t n || containsTagL t ns

end

mutual

/-- The tree contains no `<img>` element. -/
def noImgN : Node → Bool
  | .text _ => true
  | .elem t _ cs => !(t = "img") && noImgL cs

def noImgL : List Node → Bool
  | [] => true
  | n :: ns => noImgN n && noImgL ns

end

/-- The shape the final `<li>`-wrapping pass guarantees for the children of
a `<li>`: empty, or exactly one `<p>`. -/
def liShapeOk (t : String) (cs : List Node) : Bool :=
  if t = "li" then cs.isEmpty || isSinglePChild cs else true

mutual

/-- Every `<li>` in the tree has empty children or exactly one `<p>` child. -/
def liWrapInv : Node → Bool
  | .text _ => true
  | .elem t _ cs => liShapeOk t cs && liWrapInvL cs

def liWrapInvL : List Node → Bool
  | [] => true
  | n :: ns => liWrapInv n && liWrapInvL ns

end

mutual

/-- Does some `<li>` in the tree have a `<p>` element among its direct
children? -/
def liWithPChild : Node → Bool
  | .text _ => false
  | .elem t _ cs => (t = "li" && cs.any isPElem) || liWithPChildL cs

def liWithPChildL : List Node → Bool
  | [] => false
  | n :: ns => liWithPChild n || liWithPChildL ns

end

/-- The side conditions under which a character list `i` forms a plain
unordered-list item line `"- " + i` for `plain_text_to_html`: non-empty, no
leading or trailing whitespace, and the line triggers neither the
related-article nor the product-carousel branch. -/
def ItemOk (i : List Char) : Prop :=
  i ≠ [] ∧ i.dropWhile pyIsSpace = i ∧ i.reverse.dropWhile pyIsSpace = i.reverse ∧
    infixOfL relatedShortPat ('-' :: ' ' :: i) = false ∧
    infixOfL carouselShortPat ('-' :: ' ' :: i) = false

/-- The analogous side conditions for an ordered item line `"1. " + i`. -/
def ItemOkO (i : List Char) : Prop :=
  i ≠ [] ∧ i.dropWhile pyIsSpace = i ∧ i.reverse.dropWhile pyIsSpace = i.reverse ∧
    infixOfL relatedShortPat ('1' :: '.' :: ' ' :: i) = false ∧
    infixOfL carouselShortPat ('1' :: '.' :: ' ' :: i) = false

/-- The side conditions under which a stripped line `l` reaches the final
plain-paragraph branch of `plain_text_to_html`: non-empty, no surrounding
whitespace, and every earlier branch test fails. -/
def ParaOk (l : List Char) : Prop :=
  l ≠ [] ∧ l.dropWhile pyIsSpace = l ∧ l.reverse.dropWhile pyIsSpace = l.reverse ∧
    isTitleLine l = false ∧ isMetaLine l = false ∧ isHeadingLine l = false ∧
    isCtaLine l = false ∧ isRelatedLine l = false ∧ isCarouselLine l = false ∧
    isBulletLine l = false ∧ isOrderedLine l = false

instance : DecidablePred ItemOk := fun i => by unfold ItemOk; infer_instance
instance : DecidablePred ItemOkO := fun i => by unfold ItemOkO; infer_instance
instance : DecidablePred ParaOk := fun l => by unfold ParaOk; infer_instance

/-- A docx paragraph that `docx_to_html` treats as a list item: non-blank
text, a style outside `HEADING_STYLES`, and a `<w:numPr>` numbering
property. -/
def IsListItemPara (p : GPara) : Prop :=
  pyStrip (paraText p) ≠ "" ∧ headingTagOf p.style = none ∧ p.hasNumPr = true

instance : DecidablePred IsListItemPara := fun p => by
  unfold IsListItemPara; infer_instance

/-- All chunks a run of list-item paragraphs contributes to `list_buffer`:
each paragraph contributes one chunk per `<w:br>`-delimited segment. -/
def docxChunks (ps : List GPara) : List String :=
  ps.flatMap (fun p => format_paragraph false p.runs)

/-- The corresponding `md_list_buffer` lines, each prefixed by the item's
own kind marker. -/
def docxMdChunks (ps : List GPara) : List String :=
  ps.flatMap (fun p =>
    (format_paragraph false p.runs).map
      (fun c => (if paraListKind p = "ol" then "1." else "-") ++ " " ++ c))

/-- The `list_type` left behind after a run of list-item paragraphs: the
kind of the last one (or the previous value for an empty run). -/
def lastListType : List GPara → Option String → Option String
  | [], d => d
  | p :: rest, _ => lastListType rest (some (paraListKind p))

/-! ## Helper lemmas -/

theorem pyStrip_of_all_space (s : String) (h : s.data.all pyIsSpace = true) :
    pyStrip s = "" := by
  have h1 : lstripL s.data = [] := by
    simp only [lstripL, List.dropWhile_eq_nil_iff]
    intro x hx
    exact List.all_eq_true.mp h x hx
  simp only [pyStrip, pyStripL, h1]
  rfl

theorem append_wrap_ne (a c b d t : String) (h : a.length + c.length ≠ b.length + d.length) :
    a ++ t ++ c ≠ b ++ t ++ d := by
  intro he
  have hl := congrArg String.length he
  simp only [String.length_append] at hl
  omega

theorem plain_wrap_ne (b d t : String) (h : b.length + d.length ≠ 0) :
    t ≠ b ++ t ++ d := by
  intro he
  have hl := congrArg String.length he
  simp only [String.length_append] at hl
  omega

theorem head_not_of_dropWhile_eq_self {p : Char → Bool} {c : Char} {t : List Char}
    (h : (c :: t).dropWhile p = c :: t) : p c = false := by
  by_contra hc
  simp only [Bool.not_eq_false] at hc
  rw [List.dropWhile_cons, if_pos hc] at h
  have hlen := congrArg List.length h
  have hle := (List.dropWhile_sublist (l := t) p).length_le
  simp only [List.length_cons] at hlen
  omega

theorem pyStripL_eq_self_of {l : List Char} (h1 : l.dropWhile pyIsSpace = l)
    (h2 : l.reverse.dropWhile pyIsSpace = l.reverse) : pyStripL l = l := by
  simp only [pyStripL, lstripL, rstripL, h1, h2, List.reverse_reverse]

/-! ## C9: empty or whitespace-only input to clean_html -/

/-- C9: for every input that is empty or consists only of whitespace,
`clean_html` returns the empty string, performing none of the tree passes
(the result does not depend on the parse at all) and raising no error. -/
theorem c9_blank_input_empty_output (parse : String → List Node) (raw : String)
    (h : raw.data.all pyIsSpace = true) : clean_html parse raw = "" := by
  unfold clean_html
  rw [pyStrip_of_all_space raw h, if_pos rfl]

theorem c9_blank_input_empty_output_witness :
    clean_html (fun _ => [Node.elem "p" [] [Node.text "junk"]]) " \t\n " = "" :=
  c9_blank_input_empty_output _ _ (by decide)

/-! ## C10: underline emission in the DOCX run formatter -/

/-- C10: in `format_paragraph`'s run formatter, underline markup is emitted
exactly when effective bold (after heading suppression) and italic are both
false and the underline flag is set; a bold+underline run outside heading
context renders as `<strong>text</strong>` (underline dropped), while the
same run in heading context renders as `<u>text</u>`. -/
theorem c10_underline_precedence :
    (∀ (t : String) (br : Bool),
        formatRun false ⟨t, true, false, true, br⟩ = "<strong>" ++ t ++ "</strong>") ∧
    (∀ (t : String) (br : Bool),
        formatRun true ⟨t, true, false, true, br⟩ = "<u>" ++ t ++ "</u>") ∧
    (∀ (stripBold : Bool) (r : Run),
        formatRun stripBold r = "<u>" ++ r.text ++ "</u>" ↔
          ((if stripBold && r.bold then false else r.bold) = false ∧ r.italic = false ∧
            r.underline = true)) := by
  refine ⟨fun t br => rfl, fun t br => rfl, fun stripBold r => ?_⟩
  rcases r with ⟨t, b, i, u, br⟩
  constructor
  · intro h
    cases stripBold <;> cases b <;> cases i <;> cases u <;>
      first
        | exact ⟨rfl, rfl, rfl⟩
        | exact absurd h (append_wrap_ne "<strong><em>" "</em></strong>" "<u>" "</u>" t (by decide))
        | exact absurd h (append_wrap_ne "<strong>" "</strong>" "<u>" "</u>" t (by decide))
        | exact absurd h (append_wrap_ne "<em>" "</em>" "<u>" "</u>" t (by decide))
        | exact absurd h (plain_wrap_ne "<u>" "</u>" t (by decide))
  · rintro ⟨h1, h2, h3⟩
    subst h2 h3
    cases stripBold <;> cases b <;>
      first
        | rfl
        | exact Bool.noConfusion h1

/-! ## C8: image placeholders -/

theorem imgLabel_eq_spec (alt src : String) : imgLabel alt src = specImgLabel alt src := by
  unfold imgLabel specImgLabel
  by_cases ha : pyStrip alt = "" <;> by_cases hf : pyStrip (imgFilename src) = "" <;>
    simp [ha, hf] <;> rfl

mutual

theorem imagesPass_noImg : ∀ (n : Node), noImgN (imagesPass n) = true
  | .text _ => rfl
  | .elem t a cs => by
    by_cases ht : t = "img"
    · simp [imagesPass, ht, noImgN]
    · simp [imagesPass, ht, noImgN, imagesPassL_noImg cs]

theorem imagesPassL_noImg : ∀ (ns : List Node), noImgL (imagesPassL ns) = true
  | [] => rfl
  | n :: ns => by simp [imagesPassL, noImgL, imagesPass_noImg n, imagesPassL_noImg ns]

end

/-- C8: the images pass replaces every `<img>` element, in place, by the
text placeholder `[IMAGE: <label>]`, leaving no `<img>` in its output; the
label computed by the code agrees with the spec's label rule (join the
non-empty alt and the src's final path segment, query removed, with " / ",
or "IMAGE" when both are empty); and the full normalizer maps the spec's
example image to exactly `[IMAGE: Dog / photo.jpg]`. -/
theorem c8_image_placeholder :
    (∀ (attrs : Attrs) (cs : List Node),
        imagesPass (Node.elem "img" attrs cs) = Node.text (imgPlaceholder attrs)) ∧
    (∀ (ns : List Node), noImgL (imagesPassL ns) = true) ∧
    (∀ alt src, imgLabel alt src = specImgLabel alt src) ∧
    cleanTreeL [Node.elem "img" [("alt", "Dog"), ("src", "https://cdn/x/photo.jpg?v=2")] []] =
      [Node.text "[IMAGE: Dog / photo.jpg]"] :=
  ⟨fun _ _ => rfl, imagesPassL_noImg, imgLabel_eq_spec, by decide⟩

/-! ## C3: the output is not restricted to the allowed tag set -/

/-- C3 is violated by the code: `clean_html` has no pass that unwraps or
removes elements with disallowed tags; a `<div>` (outside the allowed set)
survives the whole pipeline unchanged, tag included, instead of being
unwrapped. -/
theorem c3_disallowed_tag_survives :
    cleanTreeL [Node.elem "div" [] [Node.text "hello"]] =
      [Node.elem "div" [] [Node.text "hello"]] ∧
    containsTagL "div" (cleanTreeL [Node.elem "div" [] [Node.text "hello"]]) = true :=
  ⟨by decide, by decide⟩

/-! ## C2: clean_html is not idempotent -/

/-- C2 is violated by the code: on the parse of
`<li><strong>Term</strong>, rest</li>` the first application moves the comma
inside the bold tag and leaves `" rest"`, and the second application's
NBSP-glue pass then prefixes a non-breaking space, so running the
normalizer on its own output changes it. -/
theorem c2_not_idempotent :
    cleanTreeL [Node.elem "li" [] [Node.elem "strong" [] [Node.text "Term"], Node.text ", rest"]] =
      [Node.elem "li" [] [Node.elem "p" []
        [Node.elem "strong" [] [Node.text "Term,"], Node.text " rest"]]] ∧
    cleanTreeL (cleanTreeL
        [Node.elem "li" [] [Node.elem "strong" [] [Node.text "Term"], Node.text ", rest"]]) =
      [Node.elem "li" [] [Node.elem "p" []
        [Node.elem "strong" [] [Node.text "Term,"], Node.text "\xa0 rest"]]] ∧
    cleanTreeL (cleanTreeL
        [Node.elem "li" [] [Node.elem "strong" [] [Node.text "Term"], Node.text ", rest"]]) ≠
      cleanTreeL [Node.elem "li" [] [Node.elem "strong" [] [Node.text "Term"], Node.text ", rest"]] :=
  ⟨by decide, by decide, by decide⟩

/-! ## C4: bold suppression in headings -/

/-- C4 is violated by the HTML normalizer: `clean_html`'s heading pass only
whitespace-normalises the heading's inner markup, so `<strong>` inside an
`<h2>` survives to the output. -/
theorem c4_counterexample :
    cleanTreeL [Node.elem "h2" [] [Node.elem "strong" [] [Node.text "Plain Text"]]] =
      [Node.elem "h2" [] [Node.elem "strong" [] [Node.text "Plain Text"]]] ∧
    containsTagL "strong"
      (cleanTreeL [Node.elem "h2" [] [Node.elem "strong" [] [Node.text "Plain Text"]]]) = true :=
  ⟨by decide, by decide⟩

/-- C4 amended: only the DOCX variant suppresses bold on heading runs.  In
heading context (`strip_bold`) the run formatter never emits a strong
wrapper: italic runs keep `<em>`, underlined (non-italic) runs keep `<u>`,
and every other run (bold included) renders as plain text. -/
theorem c4_amended_docx_heading_runs : ∀ (r : Run),
    formatRun true r =
      (if r.italic then "<em>" ++ r.text ++ "</em>"
       else if r.underline then "<u>" ++ r.text ++ "</u>"
       else r.text) := by
  intro r
  rcases r with ⟨t, b, i, u, br⟩
  cases b <;> cases i <;> cases u <;> rfl

/-! ## C5: list items and nested paragraphs -/

/-- C5 is violated by the code: the mid-pipeline unwrapping of a single
`<p>` child is undone by the final pass, which wraps every non-empty
`<li>`'s contents back into one `<p>`; the output list item for
`<ul><li><p>a</p></li></ul>` does contain a nested paragraph. -/
theorem c5_counterexample :
    cleanTreeL [Node.elem "ul" [] [Node.elem "li" [] [Node.elem "p" [] [Node.text "a"]]]] =
      [Node.elem "ul" [] [Node.elem "li" [] [Node.elem "p" [] [Node.text "a"]]]] ∧
    liWithPChildL
      (cleanTreeL [Node.elem "ul" [] [Node.elem "li" [] [Node.elem "p" [] [Node.text "a"]]]]) =
      true :=
  ⟨by decide, by decide⟩

theorem wrapLiChildren_inv (a : Attrs) (cs2 : List Node) (ih : liWrapInvL cs2 = true) :
    liWrapInv (wrapLiChildren a cs2) = true := by
  unfold wrapLiChildren
  by_cases he : cs2.isEmpty
  · have : cs2 = [] := by
      cases cs2
      · rfl
      · simp [List.isEmpty] at he
    subst this
    simp [liWrapInv, liShapeOk, liWrapInvL]
  · by_cases hp : isSinglePChild cs2
    · simp [he, hp, liWrapInv, liShapeOk, ih]
    · simp only [he, hp, if_false, ite_false, Bool.false_eq_true]
      simp [liWrapInv, liShapeOk, liWrapInvL, isSinglePChild, isPElem, ih]

mutual

theorem liWrapPass_inv : ∀ (n : Node), liWrapInv (liWrapPass n) = true
  | .text _ => rfl
  | .elem t a cs => by
    have ih := liWrapL_inv cs
    simp only [liWrapPass]
    by_cases ht : t = "li"
    · rw [if_pos ht]
      exact wrapLiChildren_inv a _ ih
    · rw [if_neg ht]
      simp [liWrapInv, liShapeOk, ht, ih]

theorem liWrapL_inv : ∀ (ns : List Node), liWrapInvL (liWrapL ns) = true
  | [] => rfl
  | n :: ns => by simp [liWrapL, liWrapInvL, liWrapPass_inv n, liWrapL_inv ns]

end

theorem isPElem_attrsPass (n : Node) : isPElem (attrsPass n) = isPElem n := by
  cases n <;> rfl

theorem attrsPassL_length (cs : List Node) : (attrsPassL cs).length = cs.length := by
  induction cs with
  | nil => rfl
  | cons n ns ih => simp [attrsPassL, ih]

theorem attrsPassL_all_isPElem (cs : List Node) (h : cs.all isPElem = true) :
    (attrsPassL cs).all isPElem = true := by
  induction cs with
  | nil => rfl
  | cons n ns ih =>
    simp only [List.all_cons, Bool.and_eq_true] at h
    simp [attrsPassL, List.all_cons, isPElem_attrsPass, h.1, ih h.2]

theorem attrsPassL_singleP {cs : List Node} (h : isSinglePChild cs = true) :
    isSinglePChild (attrsPassL cs) = true := by
  unfold isSinglePChild at h ⊢
  simp only [Bool.and_eq_true] at h ⊢
  exact ⟨by rw [attrsPassL_length]; exact h.1, attrsPassL_all_isPElem cs h.2⟩

theorem liShapeOk_attrs (t : String) (cs : List Node) (h : liShapeOk t cs = true) :
    liShapeOk t (attrsPassL cs) = true := by
  unfold liShapeOk at h ⊢
  by_cases ht : t = "li"
  · rw [if_pos ht] at h ⊢
    simp only [Bool.or_eq_true] at h ⊢
    rcases h with he | hp
    · have : cs = [] := by
        cases cs
        · rfl
        · simp [List.isEmpty] at he
      subst this
      exact Or.inl rfl
    · exact Or.inr (attrsPassL_singleP hp)
  · rw [if_neg ht]

mutual

theorem attrsPass_inv : ∀ (n : Node), liWrapInv n = true → liWrapInv (attrsPass n) = true
  | .text _, _ => rfl
  | .elem t a cs, h => by
    simp only [liWrapInv, Bool.and_eq_true] at h
    simp only [attrsPass, liWrapInv, Bool.and_eq_true]
    exact ⟨liShapeOk_attrs t cs h.1, attrsPassL_inv cs h.2⟩

theorem attrsPassL_inv : ∀ (ns : List Node), liWrapInvL ns = true → liWrapInvL (attrsPassL ns) = true
  | [], _ => rfl
  | n :: ns, h => by
    simp only [liWrapInvL, Bool.and_eq_true] at h
    simp only [attrsPassL, liWrapInvL, Bool.and_eq_true]
    exact ⟨attrsPass_inv n h.1, attrsPassL_inv ns h.2⟩

end

/-- C5 amended: the single-`<p>` unwrapping is only an intermediate step;
the final wrapping pass (and the attribute pass after it, which preserves
tree shape) guarantees the opposite of the claim's conclusion: in the
output of `clean_html`'s pipeline, every `<li>` is either empty or contains
exactly one child, and that child is a `<p>`. -/
theorem c5_amended_every_li_wrapped (ns : List Node) :
    liWrapInvL (cleanTreeL ns) = true := by
  unfold cleanTreeL
  exact attrsPassL_inv _ (liWrapL_inv _)

/-! ## C1: adjacent list items of different kinds -/

/-- C1 is violated by the code: an ordered item immediately followed by an
unordered item does not flush; `docx_to_html` keeps extending the same
buffer and merely overwrites `list_type`, so the output is one single
merged list (here a `<ul>` holding both items), not two list blocks. -/
theorem c1_counterexample :
    (docxFinal
        [⟨[⟨"a", false, false, false, false⟩], "Numbered List", true⟩,
         ⟨[⟨"b", false, false, false, false⟩], "List Bullet", true⟩]).html =
      ["<ul>", "  <li>a</li>", "  <li>b</li>", "</ul>\n"] ∧
    ((docxFinal
        [⟨[⟨"a", false, false, false, false⟩], "Numbered List", true⟩,
         ⟨[⟨"b", false, false, false, false⟩], "List Bullet", true⟩]).html.countP
      (fun line => line = "<ul>" || line = "<ol>")) = 1 :=
  ⟨by decide, by decide⟩

theorem docxStep_listItem (s : DState) (p : GPara)
    (hb : pyStrip (paraText p) ≠ "")
    (hh : headingTagOf p.style = none)
    (hl : p.hasNumPr = true) :
    docxStep s p =
      { s with
        inList := true,
        listType := some (paraListKind p),
        listBuffer := s.listBuffer ++ format_paragraph false p.runs,
        mdListBuffer := s.mdListBuffer ++
          (format_paragraph false p.runs).map
            (fun c => (if paraListKind p = "ol" then "1." else "-") ++ " " ++ c) } := by
  unfold docxStep
  rw [if_neg hb, hh, hl]
  simp

/-- C1 amended: a non-blank, non-heading paragraph with a numbering
property never flushes the open list, whatever the kind of the open list:
it appends its chunks to the same buffer, emits nothing to the html lines,
and overwrites the list kind with its own (so the merged list is later
emitted with the kind of its last item). -/
theorem c1_amended_kind_change_merges (s : DState) (p : GPara)
    (hb : pyStrip (paraText p) ≠ "")
    (hh : headingTagOf p.style = none)
    (hl : p.hasNumPr = true) :
    docxStep s p =
      { s with
        inList := true,
        listType := some (paraListKind p),
        listBuffer := s.listBuffer ++ format_paragraph false p.runs,
        mdListBuffer := s.mdListBuffer ++
          (format_paragraph false p.runs).map
            (fun c => (if paraListKind p = "ol" then "1." else "-") ++ " " ++ c) } :=
  docxStep_listItem s p hb hh hl

theorem c1_amended_kind_change_merges_witness :
    docxStep ⟨[], [], true, some "ol", ["a"], ["1. a"]⟩
        ⟨[⟨"b", false, false, false, false⟩], "List Bullet", true⟩ =
      ⟨[], [], true, some "ul", ["a", "b"], ["1. a", "- b"]⟩ :=
  (c1_amended_kind_change_merges _ _ (by decide) (by decide) rfl).trans (by decide)

/-! ## C7: blank blocks -/

/-- C7: a block whose text is empty or whitespace/nbsp-only produces no
output block in either normalizer: in `docx_to_html` a blank paragraph only
flushes the open list (the html gains at most the closed list block, list
mode ends and the buffer empties), and in `clean_html` the block passes
remove such a `<p>`, `<li>` or heading entirely. -/
theorem c7_blank_blocks :
    (∀ (s : DState) (p : GPara), pyStrip (paraText p) = "" →
        docxStep s p = flush_list s ∧
        (docxStep s p).html =
          s.html ++
            (if s.listBuffer.isEmpty then [] else listBlockLines s.listType s.listBuffer) ∧
        (docxStep s p).inList = false ∧
        (docxStep s p).listBuffer = []) ∧
    (∀ (attrs : Attrs) (cs : List Node),
        is_empty_or_nbsp (getTextStripL cs) = true →
        paragraphsPass (Node.elem "p" attrs cs) = []) ∧
    (∀ (attrs : Attrs) (cs : List Node),
        is_empty_or_nbsp (getTextStripL cs) = true →
        liPass (Node.elem "li" attrs cs) = []) ∧
    (∀ (tag : String) (attrs : Attrs) (cs : List Node),
        headingTags.contains tag = true →
        is_empty_or_nbsp (getTextStripL cs) = true →
        headingsPass (Node.elem tag attrs cs) = []) := by
  refine ⟨?_, ?_, ?_, ?_⟩
  · intro s p h
    have hstep : docxStep s p = flush_list s := by
      unfold docxStep
      rw [if_pos h]
    refine ⟨hstep, ?_, ?_, ?_⟩
    · rw [hstep]
      unfold flush_list
      by_cases hb : s.listBuffer.isEmpty <;> by_cases hm : s.mdListBuffer.isEmpty <;>
        simp [hb, hm]
    · rw [hstep]; rfl
    · rw [hstep]; rfl
  · intro attrs cs h
    simp [paragraphsPass, h]
  · intro attrs cs h
    simp [liPass, h]
  · intro tag attrs cs htag h
    simp [headingsPass, htag, h]
    simpa using htag

/-! ## C6: list coalescing in plain_text_to_html -/

theorem dropWhile_cons_false {p : Char → Bool} {c : Char} (hc : p c = false) (l : List Char) :
    (c :: l).dropWhile p = c :: l := by
  rw [List.dropWhile_cons, hc]
  simp

theorem dropWhile_append_of_ne_nil {p : Char → Bool} {l : List Char}
    (hl : l.dropWhile p = l) (hne : l ≠ []) (m : List Char) :
    (l ++ m).dropWhile p = l ++ m := by
  cases l with
  | nil => exact absurd rfl hne
  | cons c t =>
    have hc : p c = false := head_not_of_dropWhile_eq_self hl
    simp only [List.cons_append]
    exact dropWhile_cons_false hc _

theorem stripL_bullet {i : List Char} (hne : i ≠ [])
    (h3 : i.reverse.dropWhile pyIsSpace = i.reverse) :
    pyStripL ('-' :: ' ' :: i) = '-' :: ' ' :: i := by
  apply pyStripL_eq_self_of
  · exact dropWhile_cons_false rfl _
  · rw [show ('-' :: ' ' :: i).reverse = i.reverse ++ [' ', '-'] by simp]
    refine dropWhile_append_of_ne_nil h3 ?_ _
    simpa using hne

theorem stripL_ordered {i : List Char} (hne : i ≠ [])
    (h3 : i.reverse.dropWhile pyIsSpace = i.reverse) :
    pyStripL ('1' :: '.' :: ' ' :: i) = '1' :: '.' :: ' ' :: i := by
  apply pyStripL_eq_self_of
  · exact dropWhile_cons_false rfl _
  · rw [show ('1' :: '.' :: ' ' :: i).reverse = i.reverse ++ [' ', '.', '1'] by simp]
    refine dropWhile_append_of_ne_nil h3 ?_ _
    simpa using hne

theorem pstep_bullet_inList (s : PState) (i : List Char) (h : ItemOk i)
    (hs : s.inList = true) :
    pstep s ⟨'-' :: ' ' :: i⟩ =
      { s with inList := true, listItems := s.listItems ++ [(⟨i⟩ : String)] } := by
  obtain ⟨hne, h2, h3, hrel, hcar⟩ := h
  have hl : pyStripL (String.mk ('-' :: ' ' :: i)).data = '-' :: ' ' :: i :=
    stripL_bullet hne h3
  simp only [pstep, hl, isRelatedLine, isCarouselLine]
  rw [hrel, hcar, hs,
    show bulletItem ('-' :: ' ' :: i) = i.dropWhile pyIsSpace from rfl, h2]
  rfl

theorem pstep_bullet_start (s : PState) (i : List Char) (h : ItemOk i)
    (hs : s.inList = false) :
    pstep s ⟨'-' :: ' ' :: i⟩ =
      { flushP s with
        inList := true,
        listType := some "ul",
        listItems := (flushP s).listItems ++ [(⟨i⟩ : String)] } := by
  obtain ⟨hne, h2, h3, hrel, hcar⟩ := h
  have hl : pyStripL (String.mk ('-' :: ' ' :: i)).data = '-' :: ' ' :: i :=
    stripL_bullet hne h3
  simp only [pstep, hl, isRelatedLine, isCarouselLine]
  rw [hrel, hcar, hs,
    show bulletItem ('-' :: ' ' :: i) = i.dropWhile pyIsSpace from rfl, h2]
  rfl

theorem pstep_ordered_inList (s : PState) (i : List Char) (h : ItemOkO i)
    (hs : s.inList = true) :
    pstep s ⟨'1' :: '.' :: ' ' :: i⟩ =
      { s with inList := true, listItems := s.listItems ++ [(⟨i⟩ : String)] } := by
  obtain ⟨hne, h2, h3, hrel, hcar⟩ := h
  have hl : pyStripL (String.mk ('1' :: '.' :: ' ' :: i)).data = '1' :: '.' :: ' ' :: i :=
    stripL_ordered hne h3
  simp only [pstep, hl, isRelatedLine, isCarouselLine]
  rw [hrel, hcar, hs,
    show orderedItem ('1' :: '.' :: ' ' :: i) = i.dropWhile pyIsSpace from rfl, h2]
  rfl

theorem pstep_ordered_start (s : PState) (i : List Char) (h : ItemOkO i)
    (hs : s.inList = false) :
    pstep s ⟨'1' :: '.' :: ' ' :: i⟩ =
      { flushP s with
        inList := true,
        listType := some "ol",
        listItems := (flushP s).listItems ++ [(⟨i⟩ : String)] } := by
  obtain ⟨hne, h2, h3, hrel, hcar⟩ := h
  have hl : pyStripL (String.mk ('1' :: '.' :: ' ' :: i)).data = '1' :: '.' :: ' ' :: i :=
    stripL_ordered hne h3
  simp only [pstep, hl, isRelatedLine, isCarouselLine]
  rw [hrel, hcar, hs,
    show orderedItem ('1' :: '.' :: ' ' :: i) = i.dropWhile pyIsSpace from rfl, h2]
  rfl

theorem pstep_para (s : PState) (l : List Char) (h : ParaOk l) :
    pstep s ⟨l⟩ =
      { flushP s with
        output := (flushP s).output ++ ["<p>" ++ (⟨l⟩ : String) ++ "</p>"] } := by
  obtain ⟨hne, h2, h3, ht, hm, hh, hc, hr, hca, hb, ho⟩ := h
  have hl : pyStripL (String.mk l).data = l := pyStripL_eq_self_of h2 h3
  have hemp : l.isEmpty = false := by
    cases l
    · exact absurd rfl hne
    · rfl
  simp only [pstep, hl]
  rw [hemp, ht, hm, hh, hc, hr, hca, hb, ho]
  rfl

theorem pstep_blank (s : PState) (raw : String) (h : pyStripL raw.data = []) :
    pstep s raw = flushP s := by
  simp only [pstep, h]
  rfl

theorem foldl_bullets (items : List (List Char)) (s : PState) (hs : s.inList = true)
    (h : ∀ i ∈ items, ItemOk i) :
    (items.map (fun i => (⟨'-' :: ' ' :: i⟩ : String))).foldl pstep s =
      { s with inList := true,
               listItems := s.listItems ++ items.map (fun i => (⟨i⟩ : String)) } := by
  induction items generalizing s with
  | nil =>
    simp only [List.map_nil, List.foldl_nil, List.append_nil]
    cases s with
    | mk o il lt li =>
      simp only at hs
      rw [hs]
  | cons i rest ih =>
    simp only [List.map_cons, List.foldl_cons]
    rw [pstep_bullet_inList s i (h i (by simp)) hs]
    rw [ih _ rfl (fun j hj => h j (by simp [hj]))]
    simp [List.append_assoc]

theorem foldl_ordered (items : List (List Char)) (s : PState) (hs : s.inList = true)
    (h : ∀ i ∈ items, ItemOkO i) :
    (items.map (fun i => (⟨'1' :: '.' :: ' ' :: i⟩ : String))).foldl pstep s =
      { s with inList := true,
               listItems := s.listItems ++ items.map (fun i => (⟨i⟩ : String)) } := by
  induction items generalizing s with
  | nil =>
    simp only [List.map_nil, List.foldl_nil, List.append_nil]
    cases s with
    | mk o il lt li =>
      simp only at hs
      rw [hs]
  | cons i rest ih =>
    simp only [List.map_cons, List.foldl_cons]
    rw [pstep_ordered_inList s i (h i (by simp)) hs]
    rw [ih _ rfl (fun j hj => h j (by simp [hj]))]
    simp [List.append_assoc]

theorem flush_list_html (s : DState) :
    (flush_list s).html =
      s.html ++
        (if s.listBuffer.isEmpty then [] else listBlockLines s.listType s.listBuffer) := by
  unfold flush_list
  by_cases hb : s.listBuffer.isEmpty <;> by_cases hm : s.mdListBuffer.isEmpty <;>
    simp [hb, hm]

theorem flush_list_listBuffer (s : DState) : (flush_list s).listBuffer = [] := rfl

theorem docxStep_plainPara (s : DState) (p : GPara)
    (hb : pyStrip (paraText p) ≠ "")
    (hh : headingTagOf p.style = none)
    (hl : p.hasNumPr = false) :
    docxStep s p =
      { flush_list s with
        html := (flush_list s).html ++
          (format_paragraph false p.runs).map (fun c => "<p>" ++ c ++ "</p>\n"),
        md := (flush_list s).md ++ format_paragraph false p.runs } := by
  unfold docxStep
  rw [if_neg hb, hh, hl]
  simp

theorem docxStep_heading (s : DState) (p : GPara) (tag : String)
    (hb : pyStrip (paraText p) ≠ "")
    (hh : headingTagOf p.style = some tag) :
    docxStep s p =
      { flush_list s with
        html := (flush_list s).html ++
          (format_paragraph true p.runs).map
            (fun c => "<" ++ tag ++ ">" ++ c ++ "</" ++ tag ++ ">\n"),
        md := (flush_list s).md ++ (format_paragraph true p.runs).map (mdHeading tag) } := by
  unfold docxStep
  rw [if_neg hb, hh]

theorem lastListType_same : ∀ (ps : List GPara) (k : String) (d : Option String),
    ps ≠ [] → (∀ p ∈ ps, paraListKind p = k) → lastListType ps d = some k
  | [], _, _, hne, _ => absurd rfl hne
  | [p], k, _, _, h => by simp [lastListType, h p (by simp)]
  | p :: q :: rest, k, d, _, h =>
    lastListType_same (q :: rest) k (some (paraListKind p)) (by simp)
      (fun r hr => h r (List.mem_cons_of_mem p hr))

theorem docxChunks_ne_nil : ∀ (ps : List GPara), ps ≠ [] →
    (∀ p ∈ ps, format_paragraph false p.runs ≠ []) → docxChunks ps ≠ []
  | [], hne, _ => absurd rfl hne
  | p :: rest, _, h => by
    simp only [docxChunks, List.flatMap_cons]
    intro hcontra
    rcases List.append_eq_nil.mp hcontra with ⟨h1, _⟩
    exact h p (by simp) h1

theorem foldl_docx_listItems (ps : List GPara) (s : DState)
    (h : ∀ p ∈ ps, IsListItemPara p) :
    ps.foldl docxStep s =
      { s with
        inList := (if ps.isEmpty then s.inList else true),
        listType := lastListType ps s.listType,
        listBuffer := s.listBuffer ++ docxChunks ps,
        mdListBuffer := s.mdListBuffer ++ docxMdChunks ps } := by
  induction ps generalizing s with
  | nil => simp [docxChunks, docxMdChunks, lastListType]
  | cons p rest ih =>
    obtain ⟨hb, hh, hl⟩ := h p (by simp)
    rw [List.foldl_cons, docxStep_listItem s p hb hh hl,
      ih _ (fun q hq => h q (List.mem_cons_of_mem p hq))]
    simp [docxChunks, docxMdChunks, lastListType, List.append_assoc]

/-- C6 as stated is violated by `docx_to_html`: one qualifying list-item
paragraph whose first run carries a `<w:br>` manual line break contributes
two chunks, so the single accumulated list block holds two `<li>` items
from one input item, against the claim's one item per qualifying input
item. -/
theorem c6_counterexample :
    (docxFinal [⟨[⟨"a", false, false, false, true⟩,
                  ⟨"b", false, false, false, false⟩], "List Bullet", true⟩]).html =
      ["<ul>", "  <li>a</li>", "  <li>b</li>", "</ul>\n"] ∧
    ((docxFinal [⟨[⟨"a", false, false, false, true⟩,
                   ⟨"b", false, false, false, false⟩], "List Bullet", true⟩]).html.countP
      (fun line => line = "  <li>a</li>" || line = "  <li>b</li>")) = 2 :=
  ⟨by decide, by decide⟩

/-- C6 amended: both coalescers accumulate a maximal contiguous run of
same-kind list items into one single list block — one `<li>` per chunk,
which is one per input item except that a `<w:br>` manual line break splits
an item into several `<li>` — and flush exactly on a non-list-item block, a
blank line, or the end of the document.  Conjuncts, for `docx_to_html`:
(1) a same-kind run followed by a plain paragraph yields one list block
holding all the run's chunks, then the paragraph; (2) a run ending at the
end of the document yields that one list block; (3) a heading flushes then
emits heading lines; (4) a blank paragraph is exactly a flush.  For
`plain_text_to_html`: (5)/(6) a run of unordered/ordered items followed by
a plain paragraph yields one `<ul>`/`<ol>` with one `<li>` per item then
the paragraph — in particular three unordered items then a paragraph give
one `<ul>` with three `<li>`, not three lists; (7) a blank line always
flushes and emits nothing; (8) the end of the document flushes. -/
theorem c6_amended_list_coalescing :
    (∀ (ps : List GPara) (q : GPara) (k : String), ps ≠ [] →
        (∀ p ∈ ps, IsListItemPara p) → (∀ p ∈ ps, paraListKind p = k) →
        (∀ p ∈ ps, format_paragraph false p.runs ≠ []) →
        pyStrip (paraText q) ≠ "" → headingTagOf q.style = none → q.hasNumPr = false →
        (docxFinal (ps ++ [q])).html =
          listBlockLines (some k) (docxChunks ps) ++
            (format_paragraph false q.runs).map (fun c => "<p>" ++ c ++ "</p>\n")) ∧
    (∀ (ps : List GPara) (k : String), ps ≠ [] →
        (∀ p ∈ ps, IsListItemPara p) → (∀ p ∈ ps, paraListKind p = k) →
        (∀ p ∈ ps, format_paragraph false p.runs ≠ []) →
        (docxFinal ps).html = listBlockLines (some k) (docxChunks ps)) ∧
    (∀ (s : DState) (p : GPara) (tag : String),
        pyStrip (paraText p) ≠ "" → headingTagOf p.style = some tag →
        docxStep s p =
          { flush_list s with
            html := (flush_list s).html ++
              (format_paragraph true p.runs).map
                (fun c => "<" ++ tag ++ ">" ++ c ++ "</" ++ tag ++ ">\n"),
            md := (flush_list s).md ++
              (format_paragraph true p.runs).map (mdHeading tag) }) ∧
    (∀ (s : DState) (p : GPara), pyStrip (paraText p) = "" →
        docxStep s p = flush_list s) ∧
    (∀ (items : List (List Char)) (para : List Char), items ≠ [] →
        (∀ i ∈ items, ItemOk i) → ParaOk para →
        plain_text_to_html
            (items.map (fun i => (⟨'-' :: ' ' :: i⟩ : String)) ++ [(⟨para⟩ : String)]) =
          String.intercalate "\n"
            (["<ul>"] ++ items.map (fun i => "<li>" ++ (⟨i⟩ : String) ++ "</li>") ++
              ["</ul>", "<p>" ++ (⟨para⟩ : String) ++ "</p>"])) ∧
    (∀ (items : List (List Char)) (para : List Char), items ≠ [] →
        (∀ i ∈ items, ItemOkO i) → ParaOk para →
        plain_text_to_html
            (items.map (fun i => (⟨'1' :: '.' :: ' ' :: i⟩ : String)) ++ [(⟨para⟩ : String)]) =
          String.intercalate "\n"
            (["<ol>"] ++ items.map (fun i => "<li>" ++ (⟨i⟩ : String) ++ "</li>") ++
              ["</ol>", "<p>" ++ (⟨para⟩ : String) ++ "</p>"])) ∧
    (∀ (s : PState) (raw : String), pyStripL raw.data = [] → pstep s raw = flushP s) ∧
    (∀ (items : List (List Char)), items ≠ [] → (∀ i ∈ items, ItemOk i) →
        plain_text_to_html (items.map (fun i => (⟨'-' :: ' ' :: i⟩ : String))) =
          String.intercalate "\n"
            (["<ul>"] ++ items.map (fun i => "<li>" ++ (⟨i⟩ : String) ++ "</li>") ++
              ["</ul>"])) := by
  refine ⟨?_, ?_, docxStep_heading, ?_, ?_, ?_, pstep_blank, ?_⟩
  · intro ps q k hne h hk hc hqb hqh hqn
    have hty : lastListType ps none = some k := lastListType_same ps k none hne hk
    have hcne : docxChunks ps ≠ [] := docxChunks_ne_nil ps hne hc
    have hcf : (docxChunks ps).isEmpty = false := by
      cases hx : docxChunks ps
      · exact absurd hx hcne
      · rfl
    unfold docxFinal
    rw [List.foldl_append, foldl_docx_listItems ps initDState h, List.foldl_cons,
      List.foldl_nil, docxStep_plainPara _ q hqb hqh hqn, flush_list_html, flush_list_html]
    simp [initDState, hcf, hty, flush_list_listBuffer]
  · intro ps k hne h hk hc
    have hty : lastListType ps none = some k := lastListType_same ps k none hne hk
    have hcne : docxChunks ps ≠ [] := docxChunks_ne_nil ps hne hc
    have hcf : (docxChunks ps).isEmpty = false := by
      cases hx : docxChunks ps
      · exact absurd hx hcne
      · rfl
    unfold docxFinal
    rw [foldl_docx_listItems ps initDState h, flush_list_html]
    simp [initDState, hcf, hty]
  · intro s p h
    unfold docxStep
    rw [if_pos h]
  · intro items para hne hi hp
    obtain ⟨i0, rest, rfl⟩ : ∃ a t, items = a :: t := by
      cases items with
      | nil => exact absurd rfl hne
      | cons a t => exact ⟨a, t, rfl⟩
    unfold plain_text_to_html
    rw [List.map_cons, List.cons_append, List.foldl_cons,
      pstep_bullet_start initPState i0 (hi i0 (by simp)) rfl,
      List.foldl_append,
      foldl_bullets rest _ rfl (fun j hj => hi j (by simp [hj])),
      List.foldl_cons, List.foldl_nil,
      pstep_para _ para hp]
    simp [flushP, initPState, List.map_map, Function.comp_def]
  · intro items para hne hi hp
    obtain ⟨i0, rest, rfl⟩ : ∃ a t, items = a :: t := by
      cases items with
      | nil => exact absurd rfl hne
      | cons a t => exact ⟨a, t, rfl⟩
    unfold plain_text_to_html
    rw [List.map_cons, List.cons_append, List.foldl_cons,
      pstep_ordered_start initPState i0 (hi i0 (by simp)) rfl,
      List.foldl_append,
      foldl_ordered rest _ rfl (fun j hj => hi j (by simp [hj])),
      List.foldl_cons, List.foldl_nil,
      pstep_para _ para hp]
    simp [flushP, initPState, List.map_map, Function.comp_def]
  · intro items hne hi
    obtain ⟨i0, rest, rfl⟩ : ∃ a t, items = a :: t := by
      cases items with
      | nil => exact absurd rfl hne
      | cons a t => exact ⟨a, t, rfl⟩
    unfold plain_text_to_html
    rw [List.map_cons, List.foldl_cons,
      pstep_bullet_start initPState i0 (hi i0 (by simp)) rfl,
      foldl_bullets rest _ rfl (fun j hj => hi j (by simp [hj]))]
    simp [flushP, initPState, List.map_map, Function.comp_def]

theorem c6_amended_list_coalescing_witness :
    (docxFinal
        ([⟨[⟨"x", false, false, false, false⟩], "List Bullet", true⟩,
          ⟨[⟨"y", false, false, false, false⟩], "List Bullet", true⟩,
          ⟨[⟨"z", false, false, false, false⟩], "List Bullet", true⟩] ++
          [⟨[⟨"After", false, false, false, false⟩], "Normal", false⟩])).html =
      ["<ul>", "  <li>x</li>", "  <li>y</li>", "  <li>z</li>", "</ul>\n", "<p>After</p>\n"] ∧
    plain_text_to_html ["- Apples", "- Pears", "- Plums", "After the list"] =
      "<ul>\n<li>Apples</li>\n<li>Pears</li>\n<li>Plums</li>\n</ul>\n<p>After the list</p>" := by
  constructor
  · have h := c6_amended_list_coalescing.1
      [⟨[⟨"x", false, false, false, false⟩], "List Bullet", true⟩,
       ⟨[⟨"y", false, false, false, false⟩], "List Bullet", true⟩,
       ⟨[⟨"z", false, false, false, false⟩], "List Bullet", true⟩]
      ⟨[⟨"After", false, false, false, false⟩], "Normal", false⟩ "ul"
      (by decide) (by decide) (by decide) (by decide) (by decide) (by decide) (by decide)
    exact h.trans (by decide)
  · have h := c6_amended_list_coalescing.2.2.2.2.1
      [['A', 'p', 'p', 'l', 'e', 's'], ['P', 'e', 'a', 'r', 's'], ['P', 'l', 'u', 'm', 's']]
      "After the list".data (by decide) (by decide) (by decide)
    exact h.trans (by decide)

theorem c7_blank_blocks_witness :
    docxStep ⟨[], [], true, some "ul", ["a"], ["- a"]⟩
        ⟨[⟨" \xa0 ", false, false, false, false⟩], "Normal", false⟩ =
      ⟨["<ul>", "  <li>a</li>", "</ul>\n"], ["- a"], false, some "ul", [], []⟩ ∧
    paragraphsPass (Node.elem "p" [] [Node.text " \xa0 "]) = [] := by
  constructor
  · exact ((c7_blank_blocks.1 _ _ (by decide)).1).trans (by decide)
  · exact c7_blank_blocks.2.1 [] [Node.text " \xa0 "] (by decide)

end StreamlitTools
